import Mathlib

/-!
Verification development for the Smart-PDF-Chatbot repository.

The core under study is the heuristic table-extraction / dashboard-rendering
pipeline (`extractTable`, `generateHTML`, `saveHTMLToFile` in the backend
utils module) together with the `escapeHtml` helper and the `/compare-html`
and `/dashboard` request handlers of `backend/server.js`.

Modelling conventions:
* JavaScript strings are modelled as `List Char` (no claim depends on
  UTF-16 surrogate behaviour).
* JavaScript numbers produced by `Number(string)` are modelled exactly as
  rationals (`JSNum.fin : ℚ`) plus the two infinities; no claim depends on
  IEEE-754 rounding, and every numeric literal the grammar accepts denotes
  a terminating binary/decimal value.
* File-system state is modelled as a partial map from paths to contents;
  the wall-clock value read by `Date.now()` is passed as an explicit
  natural-number parameter.
-/

namespace SmartPdf

/-- Shorthand turning a Lean string literal into the `List Char` the model
works with. -/
def lc (s : String) : List Char := s.toList

/-- The apostrophe character (U+0027), named to keep source templates exact. -/
def apos : Char := Char.ofNat 39

/-- Characters matched by JavaScript's `\s` class and removed by
`String.prototype.trim` (WhiteSpace plus LineTerminator). -/
def jsWsChars : List Char :=
  ['\t', '\n', Char.ofNat 11, Char.ofNat 12, '\r', ' ',
   Char.ofNat 0xA0, Char.ofNat 0x1680,
   Char.ofNat 0x2000, Char.ofNat 0x2001, Char.ofNat 0x2002, Char.ofNat 0x2003,
   Char.ofNat 0x2004, Char.ofNat 0x2005, Char.ofNat 0x2006, Char.ofNat 0x2007,
   Char.ofNat 0x2008, Char.ofNat 0x2009, Char.ofNat 0x200A,
   Char.ofNat 0x2028, Char.ofNat 0x2029, Char.ofNat 0x202F,
   Char.ofNat 0x205F, Char.ofNat 0x3000, Char.ofNat 0xFEFF]

/-- Membership in JavaScript's whitespace class. -/
def isJsWs (c : Char) : Bool := jsWsChars.contains c

/-- Model of `String.prototype.trim`: strip JS whitespace from both ends. -/
def jsTrim (l : List Char) : List Char :=
  ((l.dropWhile isJsWs).reverse.dropWhile isJsWs).reverse

/-- Model of `text.split('\n')`: split on every newline, keeping empty
pieces (JavaScript semantics: `"".split('\n')` is `[""]`). -/
def splitLines : List Char → List (List Char)
  | [] => [[]]
  | '\n' :: rest => [] :: splitLines rest
  | c :: rest =>
    match splitLines rest with
    | [] => [[c]]
    | l :: ls => (c :: l) :: ls

/-- Whether the first character of a list is JS whitespace. -/
def headIsWs : List Char → Bool
  | [] => false
  | c :: _ => isJsWs c

/-- Model of `line.match(/\t|\s{2,}/)`: the line contains a tab or two
consecutive JS-whitespace characters. -/
def hasTabOrWsRun : List Char → Bool
  | [] => false
  | c :: rest => c = '\t' || (isJsWs c && headIsWs rest) || hasTabOrWsRun rest

/-- The source's per-line heuristic filter
`line.trim().length > 0 && line.match(/\t|\s{2,}/)`. -/
def qualifies (line : List Char) : Bool :=
  !(jsTrim line).isEmpty && hasTabOrWsRun line

/-- The qualifying lines of the extracted text, in order: model of
`data.text.split('\n').filter(line => line.trim().length > 0 && line.match(/\t|\s{2,}/))`. -/
def qualifyingLines (text : List Char) : List (List Char) :=
  (splitLines text).filter qualifies

/-- Model of `line.split(/\t|\s{2,}/)`. JavaScript scans left to right; at
each position the ordered alternation first matches a single tab, else a
greedy maximal run of at least two whitespace characters. `acc` holds the
current cell in reverse. -/
def splitCellsAux : ℕ → List Char → List Char → List (List Char)
  | 0, acc, l => [acc.reverse ++ l]
  | _ + 1, acc, [] => [acc.reverse]
  | fuel + 1, acc, '\t' :: rest => acc.reverse :: splitCellsAux fuel [] rest
  | fuel + 1, acc, c :: rest =>
    if isJsWs c && headIsWs rest then
      acc.reverse :: splitCellsAux fuel [] (rest.dropWhile isJsWs)
    else
      splitCellsAux fuel (c :: acc) rest

/-- Split a line into raw cells on the tab-or-whitespace-run separator.
The fuel argument only makes the recursion structural (each step consumes
at least one character, so `l.length` steps always suffice and the
fuel-exhausted fallback is never reached). -/
def splitCells (l : List Char) : List (List Char) := splitCellsAux l.length [] l

/-- Model of `line.trim().split(/\t|\s{2,}/).filter(cell => cell.trim() !== '')`:
the retained raw cells of one qualifying line. -/
def splitRow (line : List Char) : List (List Char) :=
  (splitCells (jsTrim line)).filter (fun c => !(jsTrim c).isEmpty)

/-! ### Numeric coercion: JavaScript `Number(string)` / `isNaN` -/

/-- Binary digit. -/
def isBinDigit (c : Char) : Bool := c = '0' || c = '1'

/-- Octal digit. -/
def isOctDigit (c : Char) : Bool := '0' ≤ c && c ≤ '7'

/-- Hexadecimal digit. -/
def isHexDigit (c : Char) : Bool :=
  c.isDigit || ('a' ≤ c && c ≤ 'f') || ('A' ≤ c && c ≤ 'F')

/-- Exponent tail after the `e`/`E` marker: optional sign then at least one
decimal digit and nothing else. -/
def expTail : List Char → Bool
  | '+' :: r => !r.isEmpty && r.all Char.isDigit
  | '-' :: r => !r.isEmpty && r.all Char.isDigit
  | r => !r.isEmpty && r.all Char.isDigit

/-- Optional exponent part closing a decimal literal: either nothing is
left, or an `e`/`E` followed by a well-formed exponent tail. -/
def expOpt : List Char → Bool
  | [] => true
  | c :: r => (c = 'e' || c = 'E') && expTail r

/-- ECMAScript `StrUnsignedDecimalLiteral`: `Infinity`, or digits with an
optional fraction and exponent, or a fraction with no integer part. -/
def unsignedDecimal (s : List Char) : Bool :=
  if s = lc "Infinity" then true
  else
    let intDigits := s.takeWhile Char.isDigit
    let rest := s.dropWhile Char.isDigit
    if intDigits.isEmpty then
      if rest.head? = some '.' then
        !(rest.tail.takeWhile Char.isDigit).isEmpty &&
          expOpt (rest.tail.dropWhile Char.isDigit)
      else false
    else
      if rest.head? = some '.' then expOpt (rest.tail.dropWhile Char.isDigit)
      else expOpt rest

/-- Strip one optional leading sign, returning (isNegative, remainder). -/
def stripSign : List Char → Bool × List Char
  | '+' :: r => (false, r)
  | '-' :: r => (true, r)
  | s => (false, s)

/-- Signed decimal string literal: optional single leading sign. -/
def signedDecimal (s : List Char) : Bool := unsignedDecimal (stripSign s).2

/-- Binary / octal / hex string literals `0b… / 0o… / 0x…` (no sign). -/
def nonDecimalLiteral : List Char → Bool
  | '0' :: c :: rest =>
    if c = 'b' || c = 'B' then !rest.isEmpty && rest.all isBinDigit
    else if c = 'o' || c = 'O' then !rest.isEmpty && rest.all isOctDigit
    else if c = 'x' || c = 'X' then !rest.isEmpty && rest.all isHexDigit
    else false
  | _ => false

/-- ECMAScript `StringNumericLiteral` for an already-trimmed string: exactly
the non-empty trimmed strings `s` with `!isNaN(s)`. -/
def isNumericLiteral (s : List Char) : Bool :=
  nonDecimalLiteral s || signedDecimal s

/-- A JavaScript number as produced by `Number(string)`: a finite value
(modelled exactly as a rational) or an infinity. -/
inductive JSNum where
  | fin (q : ℚ)
  | posInf
  | negInf
deriving DecidableEq

/-- Value of a digit character. -/
def decDigitVal (c : Char) : ℕ := c.toNat - 48

/-- Value of a hexadecimal digit character. -/
def hexDigitVal (c : Char) : ℕ :=
  if c.isDigit then c.toNat - 48
  else if 'a' ≤ c && c ≤ 'f' then c.toNat - 87
  else c.toNat - 55

/-- Value of a digit string in the given base. -/
def digitsVal (base : ℕ) (digVal : Char → ℕ) (l : List Char) : ℕ :=
  l.foldl (fun a c => a * base + digVal c) 0

/-- Signed value of an exponent tail. -/
def expVal : List Char → ℤ
  | '+' :: r => (digitsVal 10 decDigitVal r : ℤ)
  | '-' :: r => -(digitsVal 10 decDigitVal r : ℤ)
  | r => (digitsVal 10 decDigitVal r : ℤ)

/-- Signed value of an optional exponent part (`[]` or `e…`/`E…`). -/
def expPartVal : List Char → ℤ
  | [] => 0
  | _ :: r => expVal r

/-- Exact rational value `sgn · (intDigits.fracDigits) · 10^e`, assembled
with natural-number arithmetic and a single `mkRat` so that the kernel can
evaluate it. -/
def decMantissaValue (sign : Bool) (ipv fpv fplen : ℕ) (e : ℤ) : ℚ :=
  let base : ℕ := ipv * 10 ^ fplen + fpv
  let numNat : ℕ := base * 10 ^ e.toNat
  mkRat (if sign then -(numNat : ℤ) else (numNat : ℤ)) (10 ^ fplen * 10 ^ (-e).toNat)

/-- Value of a decimal literal with the given sign (exact, as a rational). -/
def decLitValue (sign : Bool) (s : List Char) : JSNum :=
  if s = lc "Infinity" then (if sign then .negInf else .posInf)
  else
    let ip := s.takeWhile Char.isDigit
    let rest := s.dropWhile Char.isDigit
    match rest with
    | '.' :: r2 =>
      let fp := r2.takeWhile Char.isDigit
      let r3 := r2.dropWhile Char.isDigit
      .fin (decMantissaValue sign (digitsVal 10 decDigitVal ip)
        (digitsVal 10 decDigitVal fp) fp.length (expPartVal r3))
    | r => .fin (decMantissaValue sign (digitsVal 10 decDigitVal ip) 0 0 (expPartVal r))

/-- Value of a signed decimal literal. -/
def signedDecValue (s : List Char) : JSNum :=
  decLitValue (stripSign s).1 (stripSign s).2

/-- Model of `Number(s)` for a trimmed string `s` accepted by
`isNumericLiteral` (its value on rejected strings is irrelevant: the source
only converts when `!isNaN(trimmed)` holds). -/
def numericValue (s : List Char) : JSNum :=
  if nonDecimalLiteral s then
    match s with
    | _ :: c :: rest =>
      if c = 'b' || c = 'B' then .fin (digitsVal 2 decDigitVal rest)
      else if c = 'o' || c = 'O' then .fin (digitsVal 8 decDigitVal rest)
      else .fin (digitsVal 16 hexDigitVal rest)
    | _ => .fin 0
  else signedDecValue s

/-- A cell of an extracted table: a kept string or a coerced number. -/
inductive CellVal where
  | str (s : List Char)
  | num (n : JSNum)
deriving DecidableEq

/-- Model of the per-cell conversion
`const trimmed = value.trim(); return !isNaN(trimmed) && trimmed !== '' ? Number(trimmed) : trimmed;`. -/
def coerceCell (value : List Char) : CellVal :=
  let trimmed := jsTrim value
  if isNumericLiteral trimmed && !trimmed.isEmpty then .num (numericValue trimmed)
  else .str trimmed

/-! ### Table extraction -/

/-- The two failure cases of `extractTable`. -/
inductive TableError where
  | insufficientRows
  | noValidDataRows
deriving DecidableEq

/-- The message carried by each thrown `Error`. -/
def errorMessage : TableError → List Char
  | .insufficientRows =>
    lc "No table-like data found in the PDF or insufficient rows for a table."
  | .noValidDataRows =>
    lc "Table headers found, but no valid data rows match the header count."

/-- The extracted table: `{ headers, values }`. -/
structure ExtractedTable where
  headers : List (List Char)
  values : List (List CellVal)
deriving DecidableEq

/-- Headers of the text: the first qualifying line's retained cells, each
trimmed again (`rows[0].map(header => header.trim())`). -/
def headersOf (text : List Char) : List (List Char) :=
  match qualifyingLines text with
  | l0 :: _ => (splitRow l0).map jsTrim
  | [] => []

/-- Candidate data rows whose cell count equals the header count
(`rows.slice(1).filter(row => row.length === headers.length)`), before
numeric coercion. -/
def keptRows (text : List Char) : List (List (List Char)) :=
  match qualifyingLines text with
  | _ :: rest => (rest.map splitRow).filter (fun r => r.length == (headersOf text).length)
  | [] => []

instance instDecEqExcept {ε α : Type _} [DecidableEq ε] [DecidableEq α] :
    DecidableEq (Except ε α)
  | .error a, .error b =>
    if h : a = b then isTrue (by rw [h]) else isFalse (fun hc => h (by injection hc))
  | .error _, .ok _ => isFalse (fun hc => Except.noConfusion hc)
  | .ok _, .error _ => isFalse (fun hc => Except.noConfusion hc)
  | .ok a, .ok b =>
    if h : a = b then isTrue (by rw [h]) else isFalse (fun hc => h (by injection hc))

/-- Model of the text-processing part of `extractTable` (the PDF read and
`pdf-parse` call are the external Text Extractor; `text` is its output).
Faithful to the source: fewer than 2 qualifying lines throws the first
error; zero kept rows throws the "no valid data rows" error; otherwise the
headers and the coerced kept rows are returned. -/
def extractTable (text : List Char) : Except TableError ExtractedTable :=
  if (qualifyingLines text).length < 2 then .error .insufficientRows
  else if (keptRows text).isEmpty then .error .noValidDataRows
  else .ok ⟨headersOf text, (keptRows text).map (fun r => r.map coerceCell)⟩

/-! ### `escapeHtml` (backend/server.js lines 74-79) -/

/-- Model of `str.replace(/c/g, rep)` for a single-character pattern. -/
def replaceChar (c : Char) (rep : List Char) (l : List Char) : List Char :=
  l.flatMap (fun x => if x = c then rep else [x])

/-- The double-quote character (U+0022). -/
def dquote : Char := Char.ofNat 34

/-- Model of the server's `escapeHtml`: five sequential global replaces,
ampersand first. -/
def escapeHtml (s : List Char) : List Char :=
  replaceChar apos (lc "&#39;")
    (replaceChar dquote (lc "&quot;")
      (replaceChar '>' (lc "&gt;")
        (replaceChar '<' (lc "&lt;")
          (replaceChar '&' (lc "&amp;") s))))

/-- Per-character encoding; the sequential replaces of `escapeHtml` agree
with mapping this over the input (proved below), because the entities the
earlier passes introduce contain none of the characters the later passes
replace. -/
def encodeChar (c : Char) : List Char :=
  if c = '&' then lc "&amp;"
  else if c = '<' then lc "&lt;"
  else if c = '>' then lc "&gt;"
  else if c = dquote then lc "&quot;"
  else if c = apos then lc "&#39;"
  else [c]

/-- The five entity tails that may follow an ampersand in escaped output. -/
def ampEntityTails : List (List Char) :=
  [lc "amp;", lc "lt;", lc "gt;", lc "quot;", lc "#39;"]

/-- Decoder for `escapeHtml` output, used to prove the escaping injective. -/
def unescapeHtml : List Char → List Char
  | [] => []
  | c :: cs =>
    if c = '&' then
      if (lc "amp;").isPrefixOf cs then '&' :: unescapeHtml (cs.drop 4)
      else if (lc "lt;").isPrefixOf cs then '<' :: unescapeHtml (cs.drop 3)
      else if (lc "gt;").isPrefixOf cs then '>' :: unescapeHtml (cs.drop 3)
      else if (lc "quot;").isPrefixOf cs then dquote :: unescapeHtml (cs.drop 5)
      else if (lc "#39;").isPrefixOf cs then apos :: unescapeHtml (cs.drop 4)
      else c :: unescapeHtml cs
    else c :: unescapeHtml cs
termination_by l => l.length
decreasing_by all_goals (simp_wf; try omega)

/-! ### Comparison document (backend/server.js lines 89-92) -/

/-- Everything of the comparison template before the interpolated
`escapeHtml(prompt)`. -/
def comparePre : List Char :=
  lc "<!DOCTYPE html>\n    <html><head><meta charset=\"UTF-8\"><title>Comparison</title>\n    <style>body\x7bfont-family:Arial,sans-serif;margin:20px;line-height:1.5;\x7dpre\x7bwhite-space:pre-wrap;\x7d</style>\n    </head><body><h1>Document Comparison</h1><pre>"

/-- Everything of the comparison template after the interpolation. -/
def comparePost : List Char := lc "</pre></body></html>"

/-- The `/compare-html` handler's generated document:
`` `...<pre>${escapeHtml(prompt)}</pre></body></html>` ``. -/
def compareHtmlDoc (prompt : List Char) : List Char :=
  comparePre ++ escapeHtml prompt ++ comparePost

/-! ### Dashboard rendering (`generateHTML`, utils module lines 92-139) -/

/-- Decimal digit character for a value below ten. -/
def digitChar : ℕ → Char
  | 0 => '0' | 1 => '1' | 2 => '2' | 3 => '3' | 4 => '4'
  | 5 => '5' | 6 => '6' | 7 => '7' | 8 => '8' | _ => '9'

/-- Decimal digit string of a natural number, most significant first. -/
def natDigits (n : ℕ) : List Char :=
  if _h : n < 10 then [digitChar n]
  else natDigits (n / 10) ++ [digitChar (n % 10)]
termination_by n
decreasing_by
  simp_wf
  exact Nat.div_lt_self (by omega) (by omega)

/-- Multiplicity of `p` in `n` (number of times `p` divides `n`). -/
def pMult (p n : ℕ) : ℕ :=
  if 2 ≤ p ∧ 0 < n ∧ n % p = 0 then 1 + pMult p (n / p) else 0
termination_by n
decreasing_by
  simp_wf
  exact Nat.div_lt_self (by omega) (by omega)

/-- Zero-padded `k`-digit decimal rendering of `m < 10^k`. -/
def padDigits (k m : ℕ) : List Char :=
  List.replicate (k - (natDigits m).length) '0' ++ natDigits m

/-- Template-literal rendering `` `${n}` `` of a JavaScript number, in
positional decimal notation. All values reachable from `Number(cell)` on a
numeric literal are exact terminating decimals, on which this matches the
JavaScript output (JavaScript switches to exponent notation only beyond
1e21 / below 1e-6; no claim renders such values, nor a non-integral one). -/
def jsNumToChars : JSNum → List Char
  | .posInf => lc "Infinity"
  | .negInf => lc "-Infinity"
  | .fin q =>
    let sign : List Char := if q < 0 then ['-'] else []
    let k := max (pMult 2 q.den) (pMult 5 q.den)
    let m := q.num.natAbs * 10 ^ k / q.den
    if k = 0 then sign ++ natDigits m
    else sign ++ natDigits (m / 10 ^ k) ++ ['.'] ++ padDigits k (m % 10 ^ k)

/-- Template-literal rendering of one cell. The source's
`typeof cell === 'object'` / `JSON.stringify` branch is unreachable for the
string-or-number cells `extractTable` produces, so a cell renders as
itself (strings) or as its number rendering. -/
def cellToChars : CellVal → List Char
  | .str s => s
  | .num n => jsNumToChars n

/-- Model of `` `<tr>${headers.map(header => `<th>${header}</th>`).join('')}</tr>` ``. -/
def tableHeaderRow (headers : List (List Char)) : List Char :=
  lc "<tr>" ++ headers.flatMap (fun h => lc "<th>" ++ h ++ lc "</th>") ++ lc "</tr>"

/-- Model of the data-row rendering
`` values.map(row => `<tr>${row.map(cell => `<td>${...}</td>`).join('')}</tr>`).join('') ``. -/
def tableDataRows (values : List (List CellVal)) : List Char :=
  values.flatMap (fun row =>
    lc "<tr>" ++ row.flatMap (fun cell => lc "<td>" ++ cellToChars cell ++ lc "</td>") ++ lc "</tr>")

/-- The dashboard template up to the interpolated `${tableHeader}`. -/
def htmlPre : List Char :=
  lc "\n    <!DOCTYPE html>\n    <html>\n      <head>\n        <meta charset=\"UTF-8\">\n        <meta name=\"viewport\" content=\"width=device-width, initial-scale=1.0\">\n        <title>Dashboard</title>\n        <link href=\"https://cdn.tailwindcss.com\" rel=\"stylesheet\">\n        <link href=\"https://fonts.googleapis.com/css2?family=Inter:wght@400;600;700&display=swap\" rel=\"stylesheet\">\n        <style>\n          body \x7b font-family: " ++
  [apos] ++ lc "Inter" ++ [apos] ++
  lc ", sans-serif; background-color: #f0f4f8; margin: 0; padding: 20px; \x7d\n          .container \x7b max-width: 900px; margin: 20px auto; background-color: #ffffff; padding: 30px; border-radius: 12px; box-shadow: 0 4px 12px rgba(0, 0, 0, 0.1); \x7d\n          h1 \x7b font-size: 2.5rem; color: #4338ca; text-align: center; margin-bottom: 25px; font-weight: 700; \x7d\n          table \x7b border-collapse: collapse; width: 100%; margin-top: 20px; border-radius: 8px; overflow: hidden; \x7d\n          th, td \x7b border: 1px solid #e2e8f0; padding: 12px 15px; text-align: left; \x7d\n          th \x7b background-color: #e0f2fe; color: #1e3a8a; font-weight: 600; text-transform: uppercase; font-size: 0.85rem; \x7d\n          tr:nth-child(even) \x7b background-color: #f8fafc; \x7d\n          tr:hover \x7b background-color: #eef2ff; \x7d\n          td \x7b color: #334155; font-size: 0.9rem; \x7d\n        </style>\n      </head>\n      <body>\n        <div class=\"container\">\n          <h1>" ++
  [Char.ofNat 0x1F4CA] ++
  lc " PDF Table Dashboard</h1>\n          <div class=\"overflow-x-auto rounded-lg shadow-md\">\n            <table>\n              <thead>\n                "

/-- The dashboard template between `${tableHeader}` and `${tableRows}`. -/
def htmlMid : List Char :=
  lc "\n              </thead>\n              <tbody>\n                "

/-- The dashboard template after `${tableRows}`. -/
def htmlPost : List Char :=
  lc "\n              </tbody>\n            </table>\n          </div>\n        </div>\n      </body>\n    </html>\n  "

/-- Model of `generateHTML(headers, values)`: the template literal with the
header row and the data rows interpolated. Note it applies no escaping to
header or cell text. -/
def generateHTML (headers : List (List Char)) (values : List (List CellVal)) : List Char :=
  htmlPre ++ tableHeaderRow headers ++ htmlMid ++ tableDataRows values ++ htmlPost

/-! ### Publisher (`saveHTMLToFile`, utils module lines 147-153, and the
`/compare-html` filename, server.js line 94) -/

/-- Reference (served URL) of a published table dashboard for a base name:
`saveHTMLToFile` writes `<dashboards>/<baseName>.html` and the server
returns `/dashboards/<baseName>.html`. -/
def tableDashboardRef (baseName : List Char) : List Char :=
  lc "/dashboards/" ++ baseName ++ lc ".html"

/-- Reference of a published comparison document: the filename embeds the
`Date.now()` millisecond reading `now`:
`` `compare-${Date.now()}.html` ``. -/
def compareRef (now : ℕ) : List Char :=
  lc "/dashboards/compare-" ++ natDigits now ++ lc ".html"

/-- The published-dashboards directory as a map from reference to content. -/
abbrev Store := List Char → Option (List Char)

/-- Store with no published documents. -/
def emptyStore : Store := fun _ => none

/-- Model of `fs.writeFile`: (over)write one reference. -/
def publish (s : Store) (ref content : List Char) : Store :=
  fun p => if p = ref then some content else s p

/-! ### Request handlers (backend/server.js lines 82-120) -/

/-- An HTTP reply: status, optional error message, optional returned URL. -/
structure HttpReply where
  status : ℕ
  errorMsg : Option (List Char)
  payload : Option (List Char)
deriving DecidableEq

/-- JavaScript falsiness of an optional string body field: absent or empty. -/
def jsFalsy : Option (List Char) → Bool
  | none => true
  | some s => s.isEmpty

/-- Model of the `/compare-html` handler: the reply together with the file
write it performs (filename, content), if any. `now` is the `Date.now()`
reading. -/
def compareHtmlRoute (prompt : Option (List Char)) (now : ℕ) :
    HttpReply × Option (List Char × List Char) :=
  if jsFalsy prompt then (⟨400, some (lc "Missing prompt"), none⟩, none)
  else
    let p := prompt.getD []
    let filename := lc "compare-" ++ natDigits now ++ lc ".html"
    (⟨200, none, some (lc "/dashboards/" ++ filename)⟩, some (filename, compareHtmlDoc p))

/-- Model of `path.basename(filePath, '.pdf')` given the base filename:
strip one trailing `.pdf` if present. -/
def stripPdfExt (name : List Char) : List Char :=
  if (lc ".pdf").isSuffixOf name then name.take (name.length - 4) else name

/-- Model of the `/dashboard` handler. `pdfText` is the text the external
Text Extractor produces for the stored PDF named `savedname`; the reply is
paired with the file write performed, if any. -/
def dashboardRoute (savedname : Option (List Char)) (pdfText : List Char) :
    HttpReply × Option (List Char × List Char) :=
  if jsFalsy savedname then (⟨400, some (lc "Missing savedname"), none⟩, none)
  else
    match extractTable pdfText with
    | .error _ => (⟨500, some (lc "Failed to generate dashboard"), none⟩, none)
    | .ok t =>
      let base := stripPdfExt (savedname.getD [])
      let filename := base ++ lc ".html"
      (⟨200, none, some (lc "/dashboards/" ++ filename)⟩,
       some (filename, generateHTML t.headers t.values))

/-! ### Definitions following the specification's words, for comparison
with the source-derived ones -/

/-- Whether the first character is a space. -/
def headIsSpace : List Char → Bool
  | [] => false
  | c :: _ => c = ' '

/-- Modelled from the spec: a line "contains a tab or a run of 2-or-more
consecutive space characters" (claim C2's qualifying-line signal). -/
def specHasTabOrSpaceRun : List Char → Bool
  | [] => false
  | c :: rest => c = '\t' || (c = ' ' && headIsSpace rest) || specHasTabOrSpaceRun rest

/-- Modelled from the spec: claim C2's qualifying line — non-blank and
showing the tab-or-double-space signal. -/
def specQualifies (line : List Char) : Bool :=
  !(jsTrim line).isEmpty && specHasTabOrSpaceRun line

/-- Unsigned part of the spec's strict numeric grammar: digits with at most
one decimal point, at least one digit, nothing else. -/
def specUnsignedGrammar (s : List Char) : Bool :=
  let ds := s.takeWhile Char.isDigit
  let rest := s.dropWhile Char.isDigit
  if ds.isEmpty then
    if rest.head? = some '.' then !rest.tail.isEmpty && rest.tail.all Char.isDigit
    else false
  else
    if rest.isEmpty then true
    else if rest.head? = some '.' then rest.tail.all Char.isDigit
    else false

/-- Modelled from the spec (claim C4 / design note 113): the strict
numeric-literal grammar — optional sign, digits, at most one decimal
point, no other characters. -/
def specNumericGrammar (s : List Char) : Bool :=
  specUnsignedGrammar (stripSign s).2

/-! ### Lemmas about `escapeHtml` -/

lemma replaceChar_cons (c : Char) (rep : List Char) (x : Char) (l : List Char) :
    replaceChar c rep (x :: l) = (if x = c then rep else [x]) ++ replaceChar c rep l := by
  simp [replaceChar]

lemma replaceChar_append (c : Char) (rep a b : List Char) :
    replaceChar c rep (a ++ b) = replaceChar c rep a ++ replaceChar c rep b := by
  simp [replaceChar]

lemma encode_stage (c : Char) :
    replaceChar apos (lc "&#39;")
      (replaceChar dquote (lc "&quot;")
        (replaceChar '>' (lc "&gt;")
          (replaceChar '<' (lc "&lt;")
            (if c = '&' then lc "&amp;" else [c])))) = encodeChar c := by
  by_cases h1 : c = '&'
  · subst h1; decide
  rw [if_neg h1]
  by_cases h2 : c = '<'
  · subst h2; decide
  by_cases h3 : c = '>'
  · subst h3; decide
  by_cases h4 : c = dquote
  · subst h4; decide
  by_cases h5 : c = apos
  · subst h5; decide
  simp [replaceChar, h1, h2, h3, h4, h5, encodeChar]

lemma escapeHtml_eq_flatMap (s : List Char) : escapeHtml s = s.flatMap encodeChar := by
  induction s with
  | nil => rfl
  | cons c s ih =>
    show replaceChar apos (lc "&#39;")
      (replaceChar dquote (lc "&quot;")
        (replaceChar '>' (lc "&gt;")
          (replaceChar '<' (lc "&lt;")
            (replaceChar '&' (lc "&amp;") (c :: s))))) = _
    rw [replaceChar_cons, replaceChar_append, replaceChar_append, replaceChar_append,
      replaceChar_append, encode_stage, List.flatMap_cons]
    exact congrArg _ ih

lemma escapeHtml_cons (c : Char) (s : List Char) :
    escapeHtml (c :: s) = encodeChar c ++ escapeHtml s := by
  rw [escapeHtml_eq_flatMap, escapeHtml_eq_flatMap, List.flatMap_cons]

lemma encodeChar_cases (c : Char) :
    (encodeChar c = [c] ∧ c ≠ '&' ∧ c ≠ '<' ∧ c ≠ '>' ∧ c ≠ dquote ∧ c ≠ apos) ∨
    (∃ t, t ∈ ampEntityTails ∧ encodeChar c = '&' :: t ∧ '&' ∉ t) := by
  by_cases h1 : c = '&'
  · exact Or.inr ⟨lc "amp;", by decide, by subst h1; decide, by decide⟩
  by_cases h2 : c = '<'
  · exact Or.inr ⟨lc "lt;", by decide, by subst h2; decide, by decide⟩
  by_cases h3 : c = '>'
  · exact Or.inr ⟨lc "gt;", by decide, by subst h3; decide, by decide⟩
  by_cases h4 : c = dquote
  · exact Or.inr ⟨lc "quot;", by decide, by subst h4; decide, by decide⟩
  by_cases h5 : c = apos
  · exact Or.inr ⟨lc "#39;", by decide, by subst h5; decide, by decide⟩
  exact Or.inl ⟨by simp [encodeChar, h1, h2, h3, h4, h5], h1, h2, h3, h4, h5⟩

lemma escapeHtml_no_markup_chars (s : List Char) :
    ∀ x ∈ escapeHtml s, x ≠ '<' ∧ x ≠ '>' ∧ x ≠ dquote ∧ x ≠ apos := by
  intro x hx
  rw [escapeHtml_eq_flatMap] at hx
  obtain ⟨c, _, hxc⟩ := List.mem_flatMap.mp hx
  rcases encodeChar_cases c with ⟨he, _, h2, h3, h4, h5⟩ | ⟨t, ht, he, _⟩
  · rw [he] at hxc
    have hx' : x = c := by simpa using hxc
    subst hx'
    exact ⟨h2, h3, h4, h5⟩
  · rw [he] at hxc
    have hall : ∀ y ∈ ('&' :: t), y ≠ '<' ∧ y ≠ '>' ∧ y ≠ dquote ∧ y ≠ apos := by
      fin_cases ht <;> decide
    exact hall x hxc

lemma amp_shift {t : List Char} (hna : '&' ∉ t) :
    ∀ pre suf rest : List Char, pre ++ '&' :: suf = t ++ rest →
      ∃ mid, pre = t ++ mid ∧ rest = mid ++ '&' :: suf := by
  induction t with
  | nil => exact fun pre suf rest h => ⟨pre, by simp, by simpa using h.symm⟩
  | cons e t' ih =>
    intro pre suf rest h
    cases pre with
    | nil =>
      simp only [List.nil_append, List.cons_append] at h
      injection h with h1 _
      exact absurd (h1 ▸ List.mem_cons_self e t') hna
    | cons p pre' =>
      simp only [List.cons_append] at h
      injection h with h1 h2
      obtain ⟨mid, hp, hr⟩ := ih (fun hm => hna (List.mem_cons_of_mem e hm)) pre' suf rest h2
      exact ⟨mid, by rw [List.cons_append, h1, hp], hr⟩

lemma escapeHtml_amp_structure (s : List Char) :
    ∀ pre suf, escapeHtml s = pre ++ '&' :: suf →
      ∃ t ∈ ampEntityTails, t <+: suf := by
  induction s with
  | nil =>
    intro pre suf h
    rw [escapeHtml_eq_flatMap] at h
    simp only [List.flatMap_nil] at h
    exact absurd h.symm (by simp)
  | cons c s ih =>
    intro pre suf h
    rw [escapeHtml_cons] at h
    rcases encodeChar_cases c with ⟨he, h1, _⟩ | ⟨t, ht, he, hna⟩
    · rw [he] at h
      simp only [List.singleton_append] at h
      cases pre with
      | nil =>
        simp only [List.nil_append] at h
        injection h with hc _
        exact absurd hc h1
      | cons p pre' =>
        simp only [List.cons_append] at h
        injection h with _ h2
        exact ih pre' suf h2
    · rw [he] at h
      cases pre with
      | nil =>
        simp only [List.cons_append, List.nil_append] at h
        injection h with _ h2
        exact ⟨t, ht, escapeHtml s, h2⟩
      | cons p pre' =>
        simp only [List.cons_append] at h
        injection h with _ h2
        obtain ⟨mid, _, hr⟩ := amp_shift hna pre' suf (escapeHtml s) h2.symm
        exact ih mid suf hr

lemma isPrefixOf_append_self (t l : List Char) : t.isPrefixOf (t ++ l) = true := by
  rw [List.isPrefixOf_iff_prefix]
  exact List.prefix_append t l

lemma isPrefixOf_cons_ne {a b : Char} (h : a ≠ b) (as bs : List Char) :
    (a :: as).isPrefixOf (b :: bs) = false := by
  rw [Bool.eq_false_iff, Ne, List.isPrefixOf_iff_prefix, List.cons_prefix_cons]
  simp [h]

lemma drop_length_append (t l : List Char) (n : ℕ) (h : t.length = n) :
    (t ++ l).drop n = l := List.drop_left' h

lemma isPrefixOf_append_head_ne {a b : Char} (h : a ≠ b) (as bs l : List Char) :
    (a :: as).isPrefixOf ((b :: bs) ++ l) = false := by
  rw [List.cons_append]
  exact isPrefixOf_cons_ne h as (bs ++ l)

lemma unescapeHtml_escapeHtml (s : List Char) : unescapeHtml (escapeHtml s) = s := by
  have ea : lc "amp;" = 'a' :: 'm' :: 'p' :: [';'] := rfl
  have el : lc "lt;" = 'l' :: 't' :: [';'] := rfl
  have eg : lc "gt;" = 'g' :: 't' :: [';'] := rfl
  have eq' : lc "quot;" = 'q' :: 'u' :: 'o' :: 't' :: [';'] := rfl
  have e9 : lc "#39;" = '#' :: '3' :: '9' :: [';'] := rfl
  induction s with
  | nil =>
    have h0 : escapeHtml [] = [] := rfl
    rw [h0]
    simp [unescapeHtml]
  | cons c s ih =>
    rw [escapeHtml_cons]
    by_cases h1 : c = '&'
    · subst h1
      have he : encodeChar '&' ++ escapeHtml s =
          '&' :: (('a' :: 'm' :: 'p' :: [';']) ++ escapeHtml s) := rfl
      rw [he]
      simp only [unescapeHtml, if_pos rfl, ea, isPrefixOf_append_self, if_true]
      rw [drop_length_append ('a' :: 'm' :: 'p' :: [';']) (escapeHtml s) 4 rfl, ih]
    by_cases h2 : c = '<'
    · subst h2
      have he : encodeChar '<' ++ escapeHtml s =
          '&' :: (('l' :: 't' :: [';']) ++ escapeHtml s) := rfl
      rw [he]
      simp only [unescapeHtml, if_pos rfl, ea, el]
      rw [isPrefixOf_append_head_ne (show ('a':Char) ≠ 'l' by decide)]
      simp only [Bool.false_eq_true, if_false, isPrefixOf_append_self, if_true]
      rw [drop_length_append ('l' :: 't' :: [';']) (escapeHtml s) 3 rfl, ih]
    by_cases h3 : c = '>'
    · subst h3
      have he : encodeChar '>' ++ escapeHtml s =
          '&' :: (('g' :: 't' :: [';']) ++ escapeHtml s) := rfl
      rw [he]
      simp only [unescapeHtml, if_pos rfl, ea, el, eg]
      rw [isPrefixOf_append_head_ne (show ('a':Char) ≠ 'g' by decide),
        isPrefixOf_append_head_ne (show ('l':Char) ≠ 'g' by decide)]
      simp only [Bool.false_eq_true, if_false, isPrefixOf_append_self, if_true]
      rw [drop_length_append ('g' :: 't' :: [';']) (escapeHtml s) 3 rfl, ih]
    by_cases h4 : c = dquote
    · subst h4
      have he : encodeChar dquote ++ escapeHtml s =
          '&' :: (('q' :: 'u' :: 'o' :: 't' :: [';']) ++ escapeHtml s) := rfl
      rw [he]
      simp only [unescapeHtml, if_pos rfl, ea, el, eg, eq']
      rw [isPrefixOf_append_head_ne (show ('a':Char) ≠ 'q' by decide),
        isPrefixOf_append_head_ne (show ('l':Char) ≠ 'q' by decide),
        isPrefixOf_append_head_ne (show ('g':Char) ≠ 'q' by decide)]
      simp only [Bool.false_eq_true, if_false, isPrefixOf_append_self, if_true]
      rw [drop_length_append ('q' :: 'u' :: 'o' :: 't' :: [';']) (escapeHtml s) 5 rfl, ih]
    by_cases h5 : c = apos
    · subst h5
      have he : encodeChar apos ++ escapeHtml s =
          '&' :: (('#' :: '3' :: '9' :: [';']) ++ escapeHtml s) := rfl
      rw [he]
      simp only [unescapeHtml, if_pos rfl, ea, el, eg, eq', e9]
      rw [isPrefixOf_append_head_ne (show ('a':Char) ≠ '#' by decide),
        isPrefixOf_append_head_ne (show ('l':Char) ≠ '#' by decide),
        isPrefixOf_append_head_ne (show ('g':Char) ≠ '#' by decide),
        isPrefixOf_append_head_ne (show ('q':Char) ≠ '#' by decide)]
      simp only [Bool.false_eq_true, if_false, isPrefixOf_append_self, if_true]
      rw [drop_length_append ('#' :: '3' :: '9' :: [';']) (escapeHtml s) 4 rfl, ih]
    have he : encodeChar c = [c] := by simp [encodeChar, h1, h2, h3, h4, h5]
    rw [he]
    simp only [List.singleton_append, unescapeHtml, if_neg h1, ih]

lemma escapeHtml_injective {a b : List Char} (h : escapeHtml a = escapeHtml b) : a = b := by
  have := congrArg unescapeHtml h
  rwa [unescapeHtml_escapeHtml, unescapeHtml_escapeHtml] at this

/-! ### Lemmas about decimal digit strings -/

/-- Decoder for `natDigits`, establishing injectivity. -/
def digitsToVal (l : List Char) : ℕ :=
  l.foldl (fun a c => a * 10 + decDigitVal c) 0

lemma decDigitVal_digitChar (n : ℕ) (h : n < 10) : decDigitVal (digitChar n) = n := by
  interval_cases n <;> decide

lemma digitsToVal_natDigits (n : ℕ) : digitsToVal (natDigits n) = n := by
  induction n using Nat.strong_induction_on with
  | _ n ih =>
    by_cases h : n < 10
    · rw [natDigits.eq_def, dif_pos h]
      simp only [digitsToVal, List.foldl]
      rw [Nat.zero_mul, Nat.zero_add]
      exact decDigitVal_digitChar n h
    · rw [natDigits.eq_def, dif_neg h]
      simp only [digitsToVal, List.foldl_append, List.foldl]
      have hlt : n / 10 < n := Nat.div_lt_self (by omega) (by omega)
      have := ih (n / 10) hlt
      simp only [digitsToVal] at this
      rw [this, decDigitVal_digitChar (n % 10) (Nat.mod_lt n (by omega))]
      omega

lemma natDigits_injective {m n : ℕ} (h : natDigits m = natDigits n) : m = n := by
  have := congrArg digitsToVal h
  rwa [digitsToVal_natDigits, digitsToVal_natDigits] at this

lemma compareRef_injective {t1 t2 : ℕ} (h : compareRef t1 = compareRef t2) : t1 = t2 := by
  unfold compareRef at h
  have h1 : lc "/dashboards/compare-" ++ natDigits t1 =
      lc "/dashboards/compare-" ++ natDigits t2 := List.append_cancel_right h
  have h2 : natDigits t1 = natDigits t2 := List.append_cancel_left h1
  exact natDigits_injective h2

/-! ### The spec's strict numeric grammar is contained in the source's -/

lemma specUnsigned_imp_unsignedDecimal (r : List Char)
    (h : specUnsignedGrammar r = true) : unsignedDecimal r = true := by
  by_cases hInf : r = lc "Infinity"
  · simp only [unsignedDecimal, if_pos hInf]
  simp only [specUnsignedGrammar] at h
  simp only [unsignedDecimal, if_neg hInf]
  by_cases hds : (r.takeWhile Char.isDigit).isEmpty
  · rw [if_pos hds] at h ⊢
    by_cases hdot : (r.dropWhile Char.isDigit).head? = some '.'
    · rw [if_pos hdot] at h ⊢
      have h1 : (!(r.dropWhile Char.isDigit).tail.isEmpty) = true := by
        cases hb : (!(r.dropWhile Char.isDigit).tail.isEmpty) <;> rw [hb] at h <;> simp_all
      have h2 : (r.dropWhile Char.isDigit).tail.all Char.isDigit = true := by
        cases hb : (r.dropWhile Char.isDigit).tail.all Char.isDigit <;> rw [hb] at h <;> simp_all
      have htw : (r.dropWhile Char.isDigit).tail.takeWhile Char.isDigit =
          (r.dropWhile Char.isDigit).tail :=
        List.takeWhile_eq_self_iff.mpr (fun a ha => List.all_eq_true.mp h2 a ha)
      have hdw : (r.dropWhile Char.isDigit).tail.dropWhile Char.isDigit = [] :=
        List.dropWhile_eq_nil_iff.mpr (fun a ha => List.all_eq_true.mp h2 a ha)
      rw [htw, hdw, h1]
      decide
    · rw [if_neg hdot] at h
      exact absurd h (by simp)
  · rw [if_neg hds] at h ⊢
    by_cases hnil : (r.dropWhile Char.isDigit).isEmpty
    · rw [if_pos hnil] at h
      have hr : r.dropWhile Char.isDigit = [] := by
        cases hx : r.dropWhile Char.isDigit
        · rfl
        · rw [hx] at hnil; exact absurd hnil (by simp)
      rw [hr]
      have hdot : ([] : List Char).head? ≠ some '.' := by decide
      rw [if_neg hdot]
      decide
    · rw [if_neg hnil] at h
      by_cases hdot : (r.dropWhile Char.isDigit).head? = some '.'
      · rw [if_pos hdot] at h ⊢
        have hdw : (r.dropWhile Char.isDigit).tail.dropWhile Char.isDigit = [] :=
          List.dropWhile_eq_nil_iff.mpr (fun a ha => List.all_eq_true.mp h a ha)
        rw [hdw]
        decide
      · rw [if_neg hdot] at h
        exact absurd h (by simp)

lemma specNumericGrammar_imp_isNumericLiteral (s : List Char)
    (h : specNumericGrammar s = true) : isNumericLiteral s = true := by
  unfold specNumericGrammar at h
  unfold isNumericLiteral signedDecimal
  rw [specUnsigned_imp_unsignedDecimal _ h]
  simp

/-! ### Claim theorems -/

/-- C5 (confirmed): on the input text `"Name\tScore\nAlice\t90\nBob\t85\nnot a table line"`,
`parseTable` returns headers `["Name","Score"]` and rows `[["Alice",90],["Bob",85]]`;
the fourth line is discarded because it contains neither a tab nor a run of
two whitespace characters, so it fails the line heuristic. -/
theorem claim5_end_to_end_scenario :
    extractTable (lc "Name\tScore\nAlice\t90\nBob\t85\nnot a table line") =
      .ok ⟨[lc "Name", lc "Score"],
           [[.str (lc "Alice"), .num (.fin 90)], [.str (lc "Bob"), .num (.fin 85)]]⟩ ∧
    hasTabOrWsRun (lc "not a table line") = false ∧
    qualifies (lc "not a table line") = false := by decide

/-- C3 (confirmed): whenever `parseTable` succeeds, every returned row has
exactly `len(headers)` cells; a candidate data row is carried over verbatim
(cell for cell, coerced) exactly when its cell count matches the header
count, and a row with any other cell count is dropped — its (coerced) form
never appears among the values, so nothing is truncated or padded. -/
theorem claim3_row_width_invariant (text : List Char) (t : ExtractedTable)
    (h : extractTable text = .ok t) :
    (∀ row ∈ t.values, row.length = t.headers.length) ∧
    (∀ line ∈ (qualifyingLines text).tail,
      ((splitRow line).length = t.headers.length →
        (splitRow line).map coerceCell ∈ t.values) ∧
      ((splitRow line).length ≠ t.headers.length →
        (splitRow line).map coerceCell ∉ t.values)) := by
  unfold extractTable at h
  split_ifs at h with h1 h2
  have hvals : ∀ row ∈ (keptRows text).map (fun r => r.map coerceCell),
      row.length = (headersOf text).length := by
    intro row hrow
    obtain ⟨r, hr, hre⟩ := List.mem_map.mp hrow
    cases hq : qualifyingLines text with
    | nil => exact absurd (by rw [hq]; decide : (qualifyingLines text).length < 2) h1
    | cons l0 rest =>
      simp only [keptRows, hq] at hr
      have hlen := eq_of_beq (List.mem_filter.mp hr).2
      rw [← hre, List.length_map]
      exact hlen
  injection h with h
  subst h
  refine ⟨hvals, ?_⟩
  intro line hline
  cases hq : qualifyingLines text with
  | nil => exact absurd (by rw [hq]; decide : (qualifyingLines text).length < 2) h1
  | cons l0 rest =>
    rw [hq] at hline
    simp only [List.tail_cons] at hline
    constructor
    · intro hlen
      apply List.mem_map_of_mem
      simp only [keptRows, hq]
      exact List.mem_filter.mpr ⟨List.mem_map_of_mem _ hline, beq_iff_eq.mpr hlen⟩
    · intro hlen hmem
      have := hvals _ hmem
      rw [List.length_map] at this
      exact hlen this

/-- Witness for C3 at the spec's third end-to-end scenario. -/
theorem claim3_witness :
    ∃ t, extractTable (lc "A  B\n1  2\n3  4  5") = .ok t ∧
      ∀ row ∈ t.values, row.length = t.headers.length := by
  refine ⟨⟨[lc "A", lc "B"], [[.num (.fin 1), .num (.fin 2)]]⟩, by decide, ?_⟩
  exact (claim3_row_width_invariant (lc "A  B\n1  2\n3  4  5")
    ⟨[lc "A", lc "B"], [[.num (.fin 1), .num (.fin 2)]]⟩ (by decide)).1

/-- C2 (amended): `parseTable` fails exactly when fewer than two qualifying
lines exist or no candidate data row matches the header count, with the
"no valid data rows" message in the second case — but a qualifying line is
one that is non-blank and contains a tab or a run of two-or-more
consecutive WHITESPACE characters (JavaScript `\s`), not only spaces: the
source heuristic is `/\t|\s{2,}/`. -/
theorem claim2_error_characterization (text : List Char) :
    (extractTable text = .error .insufficientRows ↔
      (qualifyingLines text).length < 2) ∧
    (extractTable text = .error .noValidDataRows ↔
      (2 ≤ (qualifyingLines text).length ∧ keptRows text = [])) ∧
    ((∃ t, extractTable text = .ok t) ↔
      (2 ≤ (qualifyingLines text).length ∧ keptRows text ≠ [])) ∧
    lc "no valid data rows" <:+: errorMessage .noValidDataRows := by
  refine ⟨?_, ?_, ?_, by decide⟩
  · unfold extractTable
    split_ifs with h1 h2 <;> simp_all
  · unfold extractTable
    split_ifs with h1 h2
    · have : ¬ 2 ≤ (qualifyingLines text).length := by omega
      simp_all
    · simp_all [List.isEmpty_iff, Nat.not_lt.mp h1]
    · have h2' : keptRows text ≠ [] := fun he => h2 (List.isEmpty_iff.mpr he)
      simp_all
  · unfold extractTable
    split_ifs with h1 h2
    · have : ¬ 2 ≤ (qualifyingLines text).length := by omega
      simp_all
    · simp_all [List.isEmpty_iff]
    · have h2' : keptRows text ≠ [] := fun he => h2 (List.isEmpty_iff.mpr he)
      simp_all [Nat.not_lt.mp h1]

/-- Witness for C2: one qualifying line only, hence `insufficientRows`. -/
theorem claim2_witness :
    extractTable (lc "only one\tline") = .error .insufficientRows :=
  (claim2_error_characterization (lc "only one\tline")).1.mpr (by decide)

/-- Counterexample to C2 as stated: both lines of this text contain two
consecutive vertical tabs (U+000B) — neither a tab nor any space — so
under the claim's qualifying-line definition zero qualifying lines exist
and `parseTable` would have to fail; the source accepts both lines
(`\s{2,}` matches any whitespace) and returns a table. -/
theorem claim2_counterexample :
    ((splitLines ['a', Char.ofNat 11, Char.ofNat 11, 'b', '\n',
                  'c', Char.ofNat 11, Char.ofNat 11, 'd']).filter specQualifies).length = 0 ∧
    extractTable ['a', Char.ofNat 11, Char.ofNat 11, 'b', '\n',
                  'c', Char.ofNat 11, Char.ofNat 11, 'd'] =
      .ok ⟨[lc "a", lc "b"], [[.str (lc "c"), .str (lc "d")]]⟩ := by decide

/-- C4 (amended): a retained cell is coerced to a number exactly when its
trimmed text is non-empty and matches JavaScript's `StringNumericLiteral`
grammar — which contains the spec's strict optional-sign/digits/one-point
grammar but also accepts exponent parts, hex/octal/binary literals and
`Infinity`; every other cell, including `""`, a lone `"-"` or a lone
`"."`, is kept as its trimmed string. -/
theorem claim4_numeric_coercion (v : List Char) :
    ((∃ n, coerceCell v = .num n) ↔
      (jsTrim v ≠ [] ∧ isNumericLiteral (jsTrim v) = true)) ∧
    (specNumericGrammar (jsTrim v) = true → ∃ n, coerceCell v = .num n) ∧
    ((isNumericLiteral (jsTrim v) = false ∨ jsTrim v = []) →
      coerceCell v = .str (jsTrim v)) ∧
    coerceCell (lc "") = .str (lc "") ∧
    coerceCell (lc "-") = .str (lc "-") ∧
    coerceCell (lc ".") = .str (lc ".") := by
  refine ⟨?_, ?_, ?_, by decide, by decide, by decide⟩
  · constructor
    · intro ⟨n, hn⟩
      simp only [coerceCell] at hn
      by_cases hc : (isNumericLiteral (jsTrim v) && !(jsTrim v).isEmpty) = true
      · have hand := hc
        simp only [Bool.and_eq_true] at hand
        refine ⟨?_, hand.1⟩
        intro hnil
        rw [hnil] at hc
        exact absurd hc (by decide)
      · rw [if_neg hc] at hn
        exact absurd hn (by simp)
    · intro ⟨hne, hnum⟩
      have hc : (isNumericLiteral (jsTrim v) && !(jsTrim v).isEmpty) = true := by
        rw [hnum]
        cases hx : (jsTrim v).isEmpty
        · simp
        · exact absurd (List.isEmpty_iff.mp hx) hne
      exact ⟨numericValue (jsTrim v), by simp only [coerceCell]; rw [if_pos hc]⟩
  · intro hs
    have hne : jsTrim v ≠ [] := by
      intro hnil
      rw [hnil] at hs
      exact absurd hs (by decide)
    have hnum := specNumericGrammar_imp_isNumericLiteral _ hs
    have hc : (isNumericLiteral (jsTrim v) && !(jsTrim v).isEmpty) = true := by
      rw [hnum]
      cases hx : (jsTrim v).isEmpty
      · simp
      · exact absurd (List.isEmpty_iff.mp hx) hne
    exact ⟨numericValue (jsTrim v), by simp only [coerceCell]; rw [if_pos hc]⟩
  · intro hcase
    have hc : ¬ ((isNumericLiteral (jsTrim v) && !(jsTrim v).isEmpty) = true) := by
      rcases hcase with hfalse | hnil
      · rw [hfalse]
        simp
      · rw [hnil]
        decide
    simp only [coerceCell]
    rw [if_neg hc]

/-- Witness for C4: "42" matches the strict grammar and is coerced. -/
theorem claim4_witness : ∃ n, coerceCell (lc "42") = .num n :=
  (claim4_numeric_coercion (lc "42")).2.1 (by decide)

/-- Counterexample to C4 as stated: the cell text "1e5" does not match the
strict grammar (it contains an exponent marker), yet `parseTable` coerces
it to the number 100000 because JavaScript's `isNaN` accepts scientific
notation. -/
theorem claim4_counterexample :
    specNumericGrammar (lc "1e5") = false ∧
    extractTable (lc "a\tb\n1e5\tx") =
      .ok ⟨[lc "a", lc "b"], [[.num (.fin 100000), .str (lc "x")]]⟩ := by decide

/-- C9 (confirmed): when a qualifying line is split into cells, every cell
whose trimmed form is empty is dropped — wherever it occurs, interior cells
from consecutive separators included — so no returned cell is the empty
string, and "a\t\tb" yields exactly the two cells ["a","b"]. -/
theorem claim9_cells_never_empty :
    (∀ line : List Char, ∀ cell ∈ splitRow line, cell ≠ []) ∧
    splitRow (lc "a\t\tb") = [lc "a", lc "b"] := by
  refine ⟨?_, by decide⟩
  intro line cell hc hnil
  have hf := (List.mem_filter.mp hc).2
  rw [hnil] at hf
  exact absurd hf (by decide)

/-- Witness for C9 on the claim's own example line. -/
theorem claim9_witness : lc "a" ≠ [] :=
  claim9_cells_never_empty.1 (lc "a\t\tb") (lc "a") (by decide)

/-- C10 (confirmed): `escapeHtml` output never contains a raw `<`, `>`,
`"` or `'`; every `&` in the output begins one of the five fixed entities
(&amp; &lt; &gt; &quot; &#39;); and the function is injective. -/
theorem claim10_escapeHtml_properties :
    (∀ s : List Char, ∀ x ∈ escapeHtml s, x ≠ '<' ∧ x ≠ '>' ∧ x ≠ dquote ∧ x ≠ apos) ∧
    (∀ s pre suf : List Char, escapeHtml s = pre ++ '&' :: suf →
      ∃ t ∈ ampEntityTails, t <+: suf) ∧
    (∀ s t : List Char, escapeHtml s = escapeHtml t → s = t) :=
  ⟨escapeHtml_no_markup_chars, escapeHtml_amp_structure, fun _ _ h => escapeHtml_injective h⟩

/-- Witness for C10 at concrete inputs. -/
theorem claim10_witness :
    (('a' : Char) ≠ '<' ∧ ('a' : Char) ≠ '>' ∧ ('a' : Char) ≠ dquote ∧ ('a' : Char) ≠ apos) ∧
    (∃ t ∈ ampEntityTails, t <+: lc "amp;") ∧
    lc "q" = lc "q" :=
  ⟨claim10_escapeHtml_properties.1 (lc "a&b") 'a' (by decide),
   claim10_escapeHtml_properties.2.1 (lc "&") [] (lc "amp;") (by decide),
   claim10_escapeHtml_properties.2.2 (lc "q") (lc "q") (by decide)⟩

/-- C6 (confirmed): for every prompt, the comparison path's document is a
fixed prefix (carrying the fixed `<title>Comparison</title>` and
`<h1>Document Comparison</h1>` headings and ending in `<pre>`) followed by
exactly the escaped prompt, followed by the fixed `</pre></body></html>`
suffix. The document is a pure function of the prompt alone — no LLM
answer can appear in it — and determines the prompt uniquely. -/
theorem claim6_comparison_document (p : List Char) :
    compareHtmlDoc p = comparePre ++ escapeHtml p ++ comparePost ∧
    lc "<title>Comparison</title>" <:+: comparePre ∧
    lc "<h1>Document Comparison</h1><pre>" <:+ comparePre ∧
    comparePost = lc "</pre></body></html>" ∧
    (∀ q, compareHtmlDoc p = compareHtmlDoc q → p = q) := by
  refine ⟨rfl, by decide, by decide, rfl, ?_⟩
  intro q h
  unfold compareHtmlDoc at h
  have h1 : comparePre ++ escapeHtml p = comparePre ++ escapeHtml q :=
    List.append_cancel_right h
  exact escapeHtml_injective (List.append_cancel_left h1)

/-- Witness for C6 at a concrete prompt. -/
theorem claim6_witness :
    compareHtmlDoc (lc "hi") = comparePre ++ escapeHtml (lc "hi") ++ comparePost ∧
    lc "hi" = lc "hi" :=
  ⟨(claim6_comparison_document (lc "hi")).1,
   (claim6_comparison_document (lc "hi")).2.2.2.2 (lc "hi") rfl⟩

/-- C1 (refuted — code bug): `generateHTML` interpolates header and cell
text into the template with no escaping at all, so for the table with
header `<script>` and the row `["x"]` the rendered document contains the
raw substring `<th><script></th>`: raw `<` and `>` characters originating
from the untrusted header, which the repository's own `escapeHtml` would
have encoded. Likewise a cell `<img src=x>` is emitted raw. -/
theorem claim1_render_does_not_escape :
    lc "<th><script></th>" <:+: generateHTML [lc "<script>"] [[.str (lc "x")]] ∧
    lc "<td><img src=x></td>" <:+: generateHTML [lc "h"] [[.str (lc "<img src=x>")]] ∧
    escapeHtml (lc "<script>") ≠ lc "<script>" := by
  refine ⟨?_, ?_, by decide⟩
  · refine ⟨htmlPre ++ lc "<tr>",
      lc "</tr>" ++ htmlMid ++ tableDataRows [[.str (lc "x")]] ++ htmlPost, ?_⟩
    have hsp : lc "<th><script></th>" = lc "<th>" ++ (lc "<script>" ++ lc "</th>") := by decide
    rw [hsp]
    simp only [generateHTML, tableHeaderRow, List.flatMap_cons, List.flatMap_nil,
      List.append_nil, List.append_assoc]
  · refine ⟨htmlPre ++ tableHeaderRow [lc "h"] ++ htmlMid ++ lc "<tr>",
      lc "</tr>" ++ htmlPost, ?_⟩
    have hsp : lc "<td><img src=x></td>" = lc "<td>" ++ (lc "<img src=x>" ++ lc "</td>") := by
      decide
    rw [hsp]
    simp only [generateHTML, tableDataRows, cellToChars, List.flatMap_cons, List.flatMap_nil,
      List.append_nil, List.append_assoc]

/-- C7 (amended): a table-dashboard publish's reference depends only on the
base name, so a re-publish under the same `baseName` resolves to the same
reference and the second write overwrites the first; a comparison publish
embeds the `Date.now()` reading in its reference, so two publishes that
observe DIFFERENT millisecond timestamps get distinct references and
coexist in the store — but distinctness holds only under that condition. -/
theorem claim7_publish_reference_behaviour (b c1 c2 : List Char) (s : Store) (t1 t2 : ℕ)
    (h : t1 ≠ t2) :
    publish (publish s (tableDashboardRef b) c1) (tableDashboardRef b) c2
        (tableDashboardRef b) = some c2 ∧
    compareRef t1 ≠ compareRef t2 ∧
    natDigits t1 <:+: compareRef t1 ∧
    publish (publish s (compareRef t1) c1) (compareRef t2) c2 (compareRef t1) = some c1 ∧
    publish (publish s (compareRef t1) c1) (compareRef t2) c2 (compareRef t2) = some c2 := by
  have hne : compareRef t1 ≠ compareRef t2 := fun he => h (compareRef_injective he)
  refine ⟨by simp [publish], hne, ⟨lc "/dashboards/compare-", lc ".html", rfl⟩, ?_,
    by simp [publish]⟩
  simp [publish, hne]

/-- Witness for C7 with timestamps 0 and 1 and base name "report". -/
theorem claim7_witness :
    compareRef 0 ≠ compareRef 1 ∧
    publish (publish emptyStore (tableDashboardRef (lc "report")) (lc "v1"))
        (tableDashboardRef (lc "report")) (lc "v2") (tableDashboardRef (lc "report")) =
      some (lc "v2") :=
  ⟨(claim7_publish_reference_behaviour (lc "report") (lc "v1") (lc "v2") emptyStore 0 1
      (by decide)).2.1,
   (claim7_publish_reference_behaviour (lc "report") (lc "v1") (lc "v2") emptyStore 0 1
      (by decide)).1⟩

/-- Counterexample to C7 as stated: two comparison publishes that observe
the same `Date.now()` reading (the same millisecond) produce the SAME
reference, and the second overwrites the first — so comparison references
are not unconditionally distinct. -/
theorem claim7_counterexample :
    compareRef 0 = compareRef 0 ∧
    publish (publish emptyStore (compareRef 0) (lc "first")) (compareRef 0) (lc "second")
        (compareRef 0) = some (lc "second") :=
  ⟨rfl, by simp [publish]⟩

/-- C8 (confirmed): an empty-string required body field is rejected before
any processing — `/compare-html` with `prompt = ""` replies 400 "Missing
prompt" and writes no file (for every clock reading), and `/dashboard`
with `savedname = ""` replies 400 "Missing savedname" and touches no
storage (for every extracted text). -/
theorem claim8_empty_required_field_rejected (now : ℕ) (pdfText : List Char) :
    compareHtmlRoute (some []) now = (⟨400, some (lc "Missing prompt"), none⟩, none) ∧
    dashboardRoute (some []) pdfText = (⟨400, some (lc "Missing savedname"), none⟩, none) :=
  ⟨rfl, rfl⟩

end SmartPdf
